import Mathlib

/-!
# CLAHE batch driver: a shallow embedding of `clahe.cpp`

The program reads every file of an input directory, equalizes it with OpenCV's
CLAHE (directly for single-channel images, through the Lab colour space for
colour images) and writes the result under the same base file name in an output
directory.

The embedding keeps the control flow of `DirExists`, `clahe_conversion`,
`clahe_rgb` and `main`.  Calls into the C library, the file system and OpenCV are
fields of a `World` record, and `main` returns the sequence of such calls it
makes (an `Event` trace) together with the way it ends.
-/

namespace Clahe

/-- A C string or `std::string`, as its sequence of characters. -/
abbrev CString := List Char

/-! ## Matrices -/

/-- Depth code `CV_8U` of OpenCV (8-bit unsigned samples). -/
def CV_8U : Nat := 0

/-- Depth code `CV_16U` of OpenCV (16-bit unsigned samples). -/
def CV_16U : Nat := 2

/-- A `cv::Mat` header with its samples: `data` holds the samples row by row,
the channels of one pixel next to each other. -/
structure Mat where
  rows : Nat
  cols : Nat
  channels : Nat
  depth : Nat
  data : List Nat
  deriving DecidableEq, Repr

/-- The default-constructed `cv::Mat()`, which `cv::imread` returns for a file it
cannot decode: no rows, no columns, no data, and a type word of zero, for which
`depth()` is `CV_8U` and `channels()` is 1. -/
def Mat.empty : Mat := ⟨0, 0, 1, CV_8U, []⟩

/-- A matrix whose sample list has the length its header announces. -/
def Mat.WellFormed (m : Mat) : Prop := m.data.length = m.rows * m.cols * m.channels

instance (m : Mat) : Decidable m.WellFormed := by
  unfold Mat.WellFormed; infer_instance

/-! ## `DirExists` -/

/-- Directory bit `S_IFDIR` of `st_mode` (octal 0040000). -/
def S_IFDIR : Nat := 0o40000

/-- `DirExists(sPath)`: `stat` gives the mode word of the path, or nothing when
the call fails. -/
def DirExists (stat : CString → Option Nat) (sPath : CString) : Bool :=
  match stat sPath with
  | none => false
  | some st_mode => if st_mode &&& S_IFDIR ≠ 0 then true else false

/-! ## `atoi` -/

/-- C `isspace` in the "C" locale. -/
def isspace (c : Char) : Bool := c.toNat = 32 || (9 ≤ c.toNat && c.toNat ≤ 13)

/-- C `isdigit`. -/
def isdigit (c : Char) : Bool := 48 ≤ c.toNat && c.toNat ≤ 57

/-- The digit loop of `atoi`: consumes decimal digits, stops at the first other
character. -/
def atoiDigits : Nat → List Char → Nat
  | acc, [] => acc
  | acc, c :: cs => if isdigit c then atoiDigits (acc * 10 + (c.toNat - 48)) cs else acc

/-- The sign and digits part of `atoi`. -/
def atoiSigned (s : List Char) : Int :=
  match s with
  | [] => 0
  | c :: cs =>
    if c = '-' then -((atoiDigits 0 cs : Nat) : Int)
    else if c = '+' then ((atoiDigits 0 cs : Nat) : Int)
    else ((atoiDigits 0 (c :: cs) : Nat) : Int)

/-- The saturation of `strtol` to the range of a 64-bit `long`. -/
def clampLong (x : Int) : Int := max (-(2 ^ 63)) (min x (2 ^ 63 - 1))

/-- The conversion of a `long` to a 32-bit `int`: the low 32 bits, read as a
signed number. -/
def wrapInt (x : Int) : Int := (x + 2 ^ 31) % 2 ^ 32 - 2 ^ 31

/-- C `atoi`, as `(int) strtol(s, NULL, 10)`: skips white space, reads an
optional sign and the longest run of decimal digits, saturates to `long` and
keeps the low 32 bits. For a numeral that fits in `int` this is its value. -/
def atoi (s : CString) : Int := wrapInt (clampLong (atoiSigned (s.dropWhile isspace)))

/-! ## Output file names -/

/-- `std::string::npos` for a 64-bit `size_t`. -/
def npos : Nat := 2 ^ 64 - 1

/-- Scan of `find_last_of`: `i` is the index of the head of the list, `best` the
last match seen so far. -/
def findLastGo (set : List Char) : List Char → Nat → Nat → Nat
  | [], _, best => best
  | c :: cs, i, best => findLastGo set cs (i + 1) (if set.contains c then i else best)

/-- `s.find_last_of(set)`: the largest index of `s` holding a character of `set`,
`npos` when there is none. -/
def find_last_of (s set : CString) : Nat := findLastGo set s 0 npos

/-- `s.substr(pos)` for `pos ≤ s.size()`. -/
def substr (s : CString) (pos : Nat) : CString := s.drop pos

/-- The separator set `"/\\"` of `main`: slash and backslash. -/
def separators : CString := ['/', Char.ofNat 92]

/-- `base_filename` of `main`:
`filenames[i].substr(filenames[i].find_last_of("/\\") + 1)`, the addition being
that of `size_t`. -/
def baseFilename (file : CString) : CString :=
  substr file ((find_last_of file separators + 1) % 2 ^ 64)

/-- The text streamed into `out` in `main`: `"./" << argv[2] << "/" << base_filename`. -/
def outputPath (outDir file : CString) : CString :=
  "./".toList ++ outDir ++ "/".toList ++ baseFilename file

/-! ## Channel planes -/

/-- Plane `k` of `cv::split`: the samples of channel `k`, as a single-channel
matrix of the same size and depth. -/
def splitPlane (m : Mat) (k : Nat) : Mat :=
  { rows := m.rows, cols := m.cols, channels := 1, depth := m.depth,
    data := (List.range (m.rows * m.cols)).map (fun i => m.data.getD (i * m.channels + k) 0) }

/-- `cv::split(m, planes)`: one plane per channel of `m`. -/
def split (m : Mat) : List Mat := (List.range m.channels).map (splitPlane m)

/-- The size and depth test `cv::merge` asserts on each input against the first. -/
def sameShape (p q : Mat) : Bool :=
  p.rows = q.rows && p.cols = q.cols && p.depth = q.depth

/-- The samples of pixel `i` of `q`, one per channel. -/
def pixelSamples (q : Mat) (i : Nat) : List Nat :=
  (List.range q.channels).map (fun c => q.data.getD (i * q.channels + c) 0)

/-- `cv::merge(planes, m)`: the inputs are interleaved pixel by pixel, and the
result has as many channels as the inputs together.  The call fails (an OpenCV
assertion) when there is no input or the inputs differ in size or depth. -/
def merge (planes : List Mat) : Option Mat :=
  match planes with
  | [] => none
  | p :: _ =>
    if planes.all (sameShape p) then
      some { rows := p.rows, cols := p.cols,
             channels := (planes.map Mat.channels).sum, depth := p.depth,
             data := (List.range (p.rows * p.cols)).flatMap
                       (fun i => planes.flatMap (fun q => pixelSamples q i)) }
    else none

/-! ## The environment -/

/-- The two colour conversions `clahe_rgb` asks of `cv::cvtColor`. -/
inductive ColorCode where
  | BGR2Lab
  | Lab2BGR
  deriving DecidableEq, Repr

/-- What the program takes from outside: the file system (`stat`, `cv::glob`),
the image reader, and the OpenCV routines whose arithmetic is not part of this
program (`cv::CLAHE::apply` with its clip limit and square tile grid,
`cv::cvtColor`, and the scaled copy `255*(image/max)` of a matrix). -/
structure World where
  stat : CString → Option Nat
  glob : CString → List CString
  imread : CString → Mat
  claheApply : Mat → Int → Int → Mat
  cvtColor : ColorCode → Mat → Mat
  scale255 : Mat → Nat → Mat

/-! ## `clahe_conversion` and `clahe_rgb` -/

/-- `clahe_conversion(bgr_image, clip, window_size)`: a CLAHE object with clip
limit `clip` and a `window_size × window_size` tile grid, applied to the image. -/
def clahe_conversion (w : World) (bgr_image : Mat) (clip window_size : Int) : Mat :=
  w.claheApply bgr_image clip window_size

/-- The Lab image of `clahe_rgb`: `cv::cvtColor(bgr_image, lab_image, CV_BGR2Lab)`. -/
def labImage (w : World) (bgr_image : Mat) : Mat := w.cvtColor .BGR2Lab bgr_image

/-- The matrix `dst` of `clahe_rgb`: `clahe_conversion` on plane 0 of the split
Lab image. -/
def equalizedLuminance (w : World) (bgr_image : Mat) (clip window_size : Int) : Mat :=
  clahe_conversion w ((split (labImage w bgr_image)).getD 0 Mat.empty) clip window_size

/-- The planes `clahe_rgb` passes to `cv::merge`: the planes of the Lab image,
with plane 0 overwritten by the equalized luminance (`dst.copyTo(lab_planes[0])`). -/
def labPlanes (w : World) (bgr_image : Mat) (clip window_size : Int) : List Mat :=
  (split (labImage w bgr_image)).set 0 (equalizedLuminance w bgr_image clip window_size)

/-- The merged Lab image that `clahe_rgb` hands to the inverse conversion. -/
def mergedLab (w : World) (bgr_image : Mat) (clip window_size : Int) : Option Mat :=
  merge (labPlanes w bgr_image clip window_size)

/-- `clahe_rgb(bgr_image, clip, window_size)`; `none` when `cv::merge` raises. -/
def clahe_rgb (w : World) (bgr_image : Mat) (clip window_size : Int) : Option Mat :=
  (mergedLab w bgr_image clip window_size).map (w.cvtColor .Lab2BGR)

/-! ## `main` -/

/-- The messages `main` prints. -/
inductive Msg where
  | usage
  | inputDir (dir : CString)
  | outputDir (dir : CString)
  | inputMissing
  | outputMissing
  | gray8 (base : CString)
  | rgb8 (base : CString)
  | gray16 (base : CString)
  | rgb16 (base : CString)
  | unsupported
  deriving DecidableEq, Repr

/-- The calls `main` makes, in the order it makes them. -/
inductive Event where
  | printf (m : Msg)
  | mkdir (path : CString)
  | glob (pattern : CString)
  | setNumThreads (n : Int)
  | imread (path : CString)
  | conversion (img : Mat) (clip window_size : Int)
  | rgb (img : Mat) (clip window_size : Int)
  | imwrite (path : CString) (img : Mat)
  deriving DecidableEq, Repr

/-- The events that belong to the work on the files of the batch: listing the
directory, reading a file, equalizing, writing. -/
def Event.isFileWork : Event → Bool
  | .glob _ => true
  | .imread _ => true
  | .conversion _ _ _ => true
  | .rgb _ _ _ => true
  | .imwrite _ _ => true
  | _ => false

/-- The ways a run of `main` ends. -/
inductive Outcome where
  | exit (code : Int)
  | nullArgument (index : Nat)
  | uncaught
  deriving DecidableEq, Repr

/-- `cv::minMaxLoc(image, &min, &max)`: the largest sample. -/
def maxSample (m : Mat) : Nat := m.data.foldl max 0

/-- `image.convertTo(eightbit_image, CV_8U)`: every sample saturated to 255. -/
def convertTo8U (m : Mat) : Mat :=
  { m with depth := CV_8U, data := m.data.map (fun s => min s 255) }

/-- The equalize-and-write tail shared by the four supported cases of the loop
body; the flag is `false` when an exception leaves the body. -/
def equalizeAndWrite (w : World) (out : CString) (img : Mat) (clip window_size : Int)
    (gray color : Msg) : List Event × Bool :=
  if img.channels = 1 then
    ([.printf gray, .conversion img clip window_size,
      .imwrite out (clahe_conversion w img clip window_size)], true)
  else
    match clahe_rgb w img clip window_size with
    | some dst => ([.printf color, .rgb img clip window_size, .imwrite out dst], true)
    | none => ([.printf color, .rgb img clip window_size], false)

/-- The depth dispatch of the loop body, for the image read, the output path,
the base file name and the integer clip limit and window size. -/
def dispatch (w : World) (out base_filename : CString) (bgr_image : Mat)
    (clip window_size : Int) : List Event × Bool :=
  if bgr_image.depth = CV_8U then
    equalizeAndWrite w out bgr_image clip window_size
      (.gray8 base_filename) (.rgb8 base_filename)
  else if bgr_image.depth = CV_16U then
    let scaled := w.scale255 bgr_image (maxSample bgr_image)
    let eightbit_image := convertTo8U scaled
    equalizeAndWrite w out eightbit_image clip window_size
      (.gray16 base_filename) (.rgb16 base_filename)
  else
    ([.printf .unsupported], true)

/-- One iteration of the loop of `main` on the file `file`; `argv2`, `argv3`,
`argv4` are the output directory, clip limit and window size arguments. -/
def processImage (w : World) (argv2 argv3 argv4 : CString) (file : CString) :
    List Event × Bool :=
  let bgr_image := w.imread file
  let base_filename := baseFilename file
  let out := outputPath argv2 file
  let clip := atoi argv3
  let window_size := atoi argv4
  let r := dispatch w out base_filename bgr_image clip window_size
  (.imread file :: r.1, r.2)

/-- The loop of `main` over `filenames`. The iterations share no state; the
trace lists them in the order of the file list, and the loop stops where an
exception leaves the body. -/
def batchLoop (w : World) (argv2 argv3 argv4 : CString) : List CString → List Event × Bool
  | [] => ([], true)
  | file :: files =>
    let r := processImage w argv2 argv3 argv4 file
    if r.2 then
      let rest := batchLoop w argv2 argv3 argv4 files
      (r.1 ++ rest.1, rest.2)
    else (r.1, false)

/-- `main(argc, argv)` with `argc = argv.length`; `argv[argc]` is the null
pointer. -/
def main (w : World) (argv : List CString) : Outcome × List Event :=
  if argv.length < 5 then
    (.exit (-1), [.printf .usage])
  else
    let argv1 := argv.getD 1 []
    let argv2 := argv.getD 2 []
    let argv3 := argv.getD 3 []
    let argv4 := argv.getD 4 []
    let e0 : List Event := [.printf (.inputDir argv1), .printf (.outputDir argv2)]
    if !DirExists w.stat ("./".toList ++ argv1) then
      (.exit (-1), e0 ++ [.printf .inputMissing])
    else
      let full_out_directory := "./".toList ++ argv2
      let e1 : List Event :=
        if !DirExists w.stat full_out_directory then
          [.printf .outputMissing, .mkdir full_out_directory]
        else []
      let pattern := "./".toList ++ argv1 ++ "/*.*".toList
      let filenames := w.glob pattern
      let e2 : List Event := [.glob pattern]
      match argv.get? 5 with
      | none => (.nullArgument 5, e0 ++ e1 ++ e2)
      | some argv5 =>
        let threads := atoi argv5
        let r := batchLoop w argv2 argv3 argv4 filenames
        (if r.2 then .exit 0 else .uncaught,
         e0 ++ e1 ++ e2 ++ [.setNumThreads threads] ++ r.1)

/-! ## Contrast clipping of a tile histogram -/

/-- Modelled from the spec: the tile histogram of the equalizer (§4.3 step 2),
which the program leaves to `cv::CLAHE::apply`: 256 bins, bin `v` counting the
pixels of intensity `v` in the tile. -/
def tileHistogram (tile : List Nat) : List Nat :=
  (List.range 256).map (fun v => tile.count v)

/-- Modelled from the spec: the clip threshold of §4.3 step 3,
`T = clipLimit × (tile pixel count / 256)`, as a whole number of pixels. -/
def clipThreshold (clipLimit tilePixels : Nat) : Nat := clipLimit * tilePixels / 256

/-- Modelled from the spec: one clip-and-redistribute pass of §4.3 step 3 on a
histogram and the excess carried so far: every bin above `T` is cut to `T`, what
is cut is added to the excess, and every bin receives `excess / 256`; the rest
of the division is carried on. -/
def clipPass (T : Nat) (state : List Nat × Nat) : List Nat × Nat :=
  let excess := state.2 + (state.1.map (fun b => b - T)).sum
  ((state.1.map (fun b => min b T)).map (fun b => b + excess / 256), excess % 256)

/-- Modelled from the spec: the bounded iteration of the clip-and-redistribute
pass (§4.3 step 3); `cv::CLAHE` makes one pass. -/
def clipPasses (T : Nat) : Nat → List Nat × Nat → List Nat × Nat
  | 0, state => state
  | rounds + 1, state => clipPasses T rounds (clipPass T state)

/-- One more pixel in bin `i`. -/
def bump : List Nat → Nat → List Nat
  | [], _ => []
  | b :: bs, 0 => (b + 1) :: bs
  | b :: bs, i + 1 => b :: bump bs i

/-- Modelled from the spec: the final remainder of §4.3 step 3 is handed out one
pixel per bin at evenly spaced bins, the loop
`for (i = 0; i < 256 && residual > 0; i += step, residual--) hist[i]++`. -/
def spreadResidual (step : Nat) : Nat → Nat → List Nat → List Nat
  | 0, _, hist => hist
  | residual + 1, i, hist =>
    if i < 256 then spreadResidual step residual (i + step) (bump hist i) else hist

/-- Modelled from the spec: contrast clipping of a tile histogram (§4.3 step 3)
with threshold `T` and at most `rounds` clip-and-redistribute passes, followed
by the hand-out of the remainder with step `max (256 / remainder) 1`. -/
def clipHistogram (T rounds : Nat) (hist : List Nat) : List Nat :=
  let state := clipPasses T rounds (hist, 0)
  spreadResidual (max (256 / state.2) 1) state.2 0 state.1

/-! ## Example inputs -/

/-- A world for the examples: every path is a directory for `stat`, the
directory listing is `files`, `bad` names the files the reader cannot decode
(the reader returns the empty matrix for them), every other file decodes to
`good`, and the OpenCV routines return their input. -/
def exampleWorld (files : List CString) (bad : CString → Bool) (good : Mat) : World :=
  { stat := fun _ => some S_IFDIR
    glob := fun _ => files
    imread := fun f => if bad f then Mat.empty else good
    claheApply := fun m _ _ => m
    cvtColor := fun _ m => m
    scale255 := fun m _ => m }

/-- A 2×2 single-channel 8-bit image. -/
def gray2x2 : Mat := ⟨2, 2, 1, CV_8U, [10, 20, 30, 40]⟩

/-- A 1×1 single-channel image of 32-bit floating-point depth (`CV_32F = 5`). -/
def float1x1 : Mat := ⟨1, 1, 1, 5, [0]⟩

/-- The example world with an empty file system: `stat` fails on every path. -/
def emptyDiskWorld : World :=
  { exampleWorld [] (fun _ => false) gray2x2 with stat := fun _ => none }

/-- The example world with an equalizer that inverts every sample, a forward
colour conversion that adds one to every sample and an inverse conversion that
takes it off again. -/
def invertingWorld : World :=
  { exampleWorld [] (fun _ => false) gray2x2 with
    claheApply := fun m _ _ => { m with data := m.data.map (fun s => 255 - s) }
    cvtColor := fun code m =>
      match code with
      | .BGR2Lab => { m with data := m.data.map (fun s => s + 1) }
      | .Lab2BGR => { m with data := m.data.map (fun s => s - 1) } }

/-- A 1×2 three-channel 8-bit image. -/
def color1x2 : Mat := ⟨1, 2, 3, CV_8U, [1, 2, 3, 4, 5, 6]⟩

/-! ## Decode failures and unsupported depths in the loop -/

/-- Claim C1, evaluated on the code: the loop body run on a file the reader
cannot decode (it returns the empty matrix) takes the 8-bit single-channel
branch, so it calls `clahe_conversion` on the empty matrix and then `imwrite`,
instead of skipping the file. -/
theorem undecodable_file_is_equalized_and_written :
    (processImage (exampleWorld [] (fun _ => true) gray2x2)
        "out".toList "2".toList "8".toList "./in/bad.png".toList).1
      = [Event.imread "./in/bad.png".toList,
         Event.printf (Msg.gray8 "bad.png".toList),
         Event.conversion Mat.empty 2 8,
         Event.imwrite "./out/bad.png".toList Mat.empty] := by
  decide

/-- Claim C2: for a file whose image has a depth that is neither `CV_8U` nor
`CV_16U`, the loop reads it, prints the unsupported-format message, calls
neither the equalizer nor the writer, and goes on with the remaining files. -/
theorem unsupported_depth_skipped (w : World) (argv2 argv3 argv4 file : CString)
    (files : List CString)
    (h8 : (w.imread file).depth ≠ CV_8U) (h16 : (w.imread file).depth ≠ CV_16U) :
    processImage w argv2 argv3 argv4 file
        = ([Event.imread file, Event.printf Msg.unsupported], true)
      ∧ batchLoop w argv2 argv3 argv4 (file :: files)
        = ([Event.imread file, Event.printf Msg.unsupported]
              ++ (batchLoop w argv2 argv3 argv4 files).1,
           (batchLoop w argv2 argv3 argv4 files).2) := by
  have hp : processImage w argv2 argv3 argv4 file
      = ([Event.imread file, Event.printf Msg.unsupported], true) := by
    simp [processImage, dispatch, h8, h16]
  exact ⟨hp, by simp [batchLoop, hp]⟩

/-- Witness for claim C2: two files that both decode to a floating-point image. -/
theorem unsupported_depth_skipped_witness :
    batchLoop (exampleWorld [] (fun _ => false) float1x1)
        "out".toList "2".toList "8".toList ["a.tif".toList, "b.tif".toList]
      = ([Event.imread "a.tif".toList, Event.printf Msg.unsupported]
            ++ (batchLoop (exampleWorld [] (fun _ => false) float1x1)
                  "out".toList "2".toList "8".toList ["b.tif".toList]).1,
         (batchLoop (exampleWorld [] (fun _ => false) float1x1)
            "out".toList "2".toList "8".toList ["b.tif".toList]).2) :=
  (unsupported_depth_skipped (exampleWorld [] (fun _ => false) float1x1)
    "out".toList "2".toList "8".toList "a.tif".toList ["b.tif".toList]
    (by decide) (by decide)).2

/-! ## Set-up errors and arguments of `main` -/

/-- When `stat` fails on `"./" + argv[1]`, or gives a mode without the bit
`S_IFDIR`, `main` returns a non-zero code and everything it has done by then is
printing: no directory listing, no read, no equalization, no write. The same
holds when `main` stops at the usage test. -/
theorem no_directory_bit_aborts (w : World) (argv : List CString)
    (h : ∀ dir, argv.get? 1 = some dir →
      w.stat ("./".toList ++ dir) = none
        ∨ ∃ mode, w.stat ("./".toList ++ dir) = some mode ∧ mode &&& S_IFDIR = 0) :
    (∃ code, (main w argv).1 = Outcome.exit code ∧ code ≠ 0)
      ∧ ∀ e ∈ (main w argv).2, e.isFileWork = false ∧ ∃ m, e = Event.printf m := by
  unfold main
  by_cases hlen : argv.length < 5
  · simp [hlen, Event.isFileWork]
  · have h1 : argv.get? 1 = some (argv.getD 1 []) := by
      have : 1 < argv.length := by omega
      simp [List.getD, List.getElem?_eq_getElem this]
    have hd : DirExists w.stat ('.' :: '/' :: argv[1]?.getD []) = false := by
      rcases h _ h1 with hnone | ⟨mode, hsome, hbit⟩
      · have hnone2 : w.stat ('.' :: '/' :: argv[1]?.getD []) = none := by simpa using hnone
        simp [DirExists, hnone2]
      · have hsome2 : w.stat ('.' :: '/' :: argv[1]?.getD []) = some mode := by
          simpa using hsome
        simp [DirExists, hsome2, hbit]
    simp [hlen, hd, Event.isFileWork]

/-- An instance of `no_directory_bit_aborts`: nothing exists in the file system,
and `main` is run with all five arguments. -/
theorem no_directory_bit_aborts_example :
    (∃ code, (main emptyDiskWorld
        ["clahe".toList, "in".toList, "out".toList, "2".toList, "8".toList, "4".toList]).1
          = Outcome.exit code ∧ code ≠ 0)
      ∧ ∀ e ∈ (main emptyDiskWorld
          ["clahe".toList, "in".toList, "out".toList, "2".toList, "8".toList, "4".toList]).2,
        e.isFileWork = false ∧ ∃ m, e = Event.printf m :=
  no_directory_bit_aborts emptyDiskWorld
    ["clahe".toList, "in".toList, "out".toList, "2".toList, "8".toList, "4".toList]
    (by intro dir _; exact Or.inl rfl)

/-- Claim C10, evaluated on the code: with four arguments after the program name
(`argc = 5`) `main` passes its usage test, and then reads `argv[5]`, which is
the null pointer that ends the argument vector, not an argument. -/
theorem thread_count_read_past_arguments :
    ¬ (["clahe".toList, "in".toList, "out".toList, "2".toList, "8".toList].length < 5)
      ∧ ["clahe".toList, "in".toList, "out".toList, "2".toList, "8".toList].get? 5 = none
      ∧ (main (exampleWorld [] (fun _ => false) gray2x2)
          ["clahe".toList, "in".toList, "out".toList, "2".toList, "8".toList]).1
        = Outcome.nullArgument 5 := by
  decide

/-! ## The clip limit argument -/

/-- The character of a decimal digit is a digit for `isdigit`, with its value. -/
theorem digitChar_spec (d : Nat) (hd : d < 10) :
    isdigit (Nat.digitChar d) = true ∧ (Nat.digitChar d).toNat - 48 = d := by
  interval_cases d <;> exact ⟨by decide, by decide⟩

/-- The digit loop on a run of digits followed by a text that starts with no
digit. -/
theorem atoiDigits_digits (ds : List Nat) (rest : List Char) (acc : Nat)
    (hds : ∀ d ∈ ds, d < 10) (hrest : ∀ c ∈ rest.head?, isdigit c = false) :
    atoiDigits acc (ds.map Nat.digitChar ++ rest)
      = ds.foldl (fun a d => d + 10 * a) acc := by
  induction ds generalizing acc with
  | nil =>
    cases rest with
    | nil => simp [atoiDigits]
    | cons c cs =>
      have : isdigit c = false := hrest c (by simp)
      simp [atoiDigits, this]
  | cons d ds ih =>
    have hd := digitChar_spec d (hds d (by simp))
    have ih2 := ih (acc * 10 + d) (fun x hx => hds x (by simp [hx]))
    have step : atoiDigits acc (Nat.digitChar d :: (ds.map Nat.digitChar ++ rest))
        = atoiDigits (acc * 10 + d) (ds.map Nat.digitChar ++ rest) := by
      rw [atoiDigits, if_pos hd.1, hd.2]
    rw [List.map_cons, List.cons_append, step, ih2, List.foldl_cons]
    congr 1
    ring

/-- A number that fits in `int` passes the saturation and the conversion to
`int` unchanged. -/
theorem wrapInt_clampLong_of_fit (n : Nat) (hfit : n < 2 ^ 31) :
    wrapInt (clampLong (n : Int)) = n := by
  have h1 : clampLong (n : Int) = n := by
    unfold clampLong
    rw [min_eq_left (by omega), max_eq_right (by omega)]
  rw [h1]
  unfold wrapInt
  omega

/-- The value of `atoi` on a nonempty run of decimal digits followed by a text
that starts with no digit is the number the digits denote, when it fits in
`int`. -/
theorem atoi_digits (ds : List Nat) (rest : List Char)
    (hds : ∀ d ∈ ds, d < 10) (hne : ds ≠ [])
    (hrest : ∀ c ∈ rest.head?, isdigit c = false)
    (hfit : Nat.ofDigits 10 ds.reverse < 2 ^ 31) :
    atoi (ds.map Nat.digitChar ++ rest) = ((Nat.ofDigits 10 ds.reverse : Nat) : Int) := by
  cases ds with
  | nil => exact absurd rfl hne
  | cons d ds =>
    have hd := digitChar_spec d (hds d (by simp))
    have hsp : isspace (Nat.digitChar d) = false := by
      have : d < 10 := hds d (by simp)
      interval_cases d <;> decide
    have hm : Nat.digitChar d ≠ '-' := by
      have : d < 10 := hds d (by simp)
      interval_cases d <;> decide
    have hp : Nat.digitChar d ≠ '+' := by
      have : d < 10 := hds d (by simp)
      interval_cases d <;> decide
    have hloop := atoiDigits_digits (d :: ds) rest 0 hds hrest
    simp only [List.map_cons, List.cons_append] at hloop
    have hdrop : (Nat.digitChar d :: (ds.map Nat.digitChar ++ rest)).dropWhile isspace
        = Nat.digitChar d :: (ds.map Nat.digitChar ++ rest) := by
      simp [List.dropWhile_cons, hsp]
    have hsigned : atoiSigned (Nat.digitChar d :: (ds.map Nat.digitChar ++ rest))
        = ((atoiDigits 0 (Nat.digitChar d :: (ds.map Nat.digitChar ++ rest)) : Nat) : Int) := by
      simp [atoiSigned, hm, hp]
    have hval : (d :: ds).foldl (fun a d => d + 10 * a) 0 = Nat.ofDigits 10 (d :: ds).reverse := by
      rw [Nat.ofDigits_eq_foldr, List.foldr_reverse]
      simp
    show atoi (Nat.digitChar d :: (ds.map Nat.digitChar ++ rest)) = _
    unfold atoi
    rw [hdrop, hsigned, hloop, hval]
    exact wrapInt_clampLong_of_fit _ hfit

/-- Claim C5, as the code has it: when the clip limit argument starts with a
nonempty run of decimal digits and goes on, if at all, with a character that is
no digit (an integer numeral such as `2`, a decimal such as `2.5`), and the
number `N` the digit run denotes fits in `int`, then `N` is the clip limit that
reaches the equalizer: in each of the four supported cases of the loop body the
call of `clahe_conversion` or `clahe_rgb` carries `N`, and the image written is
built from `cv::CLAHE::apply` run with clip limit `N` (on the image itself for a
single-channel image, on plane 0 of its Lab image otherwise). An integer
argument is passed on unchanged, a decimal is cut at the decimal point. -/
theorem clip_limit_passed (w : World) (argv2 argv4 file : CString) (ds : List Nat)
    (rest : CString) (N : Nat) (img : Mat)
    (hds : ∀ d ∈ ds, d < 10) (hne : ds ≠ [])
    (hrest : ∀ c ∈ rest.head?, isdigit c = false)
    (hN : Nat.ofDigits 10 ds.reverse = N) (hfit : N < 2 ^ 31)
    (himg : w.imread file = img) :
    (img.depth = CV_8U → img.channels = 1 →
      processImage w argv2 (ds.map Nat.digitChar ++ rest) argv4 file
        = ([Event.imread file, Event.printf (Msg.gray8 (baseFilename file)),
            Event.conversion img N (atoi argv4),
            Event.imwrite (outputPath argv2 file) (w.claheApply img N (atoi argv4))], true))
    ∧ (img.depth = CV_8U → img.channels ≠ 1 →
      processImage w argv2 (ds.map Nat.digitChar ++ rest) argv4 file
        = match merge ((split (w.cvtColor .BGR2Lab img)).set 0
              (w.claheApply ((split (w.cvtColor .BGR2Lab img)).getD 0 Mat.empty)
                N (atoi argv4))) with
          | some merged =>
            ([Event.imread file, Event.printf (Msg.rgb8 (baseFilename file)),
              Event.rgb img N (atoi argv4),
              Event.imwrite (outputPath argv2 file) (w.cvtColor .Lab2BGR merged)], true)
          | none =>
            ([Event.imread file, Event.printf (Msg.rgb8 (baseFilename file)),
              Event.rgb img N (atoi argv4)], false))
    ∧ (img.depth = CV_16U →
        (convertTo8U (w.scale255 img (maxSample img))).channels = 1 →
      processImage w argv2 (ds.map Nat.digitChar ++ rest) argv4 file
        = ([Event.imread file, Event.printf (Msg.gray16 (baseFilename file)),
            Event.conversion (convertTo8U (w.scale255 img (maxSample img))) N (atoi argv4),
            Event.imwrite (outputPath argv2 file)
              (w.claheApply (convertTo8U (w.scale255 img (maxSample img))) N (atoi argv4))],
           true))
    ∧ (img.depth = CV_16U →
        (convertTo8U (w.scale255 img (maxSample img))).channels ≠ 1 →
      processImage w argv2 (ds.map Nat.digitChar ++ rest) argv4 file
        = match merge ((split (w.cvtColor .BGR2Lab
              (convertTo8U (w.scale255 img (maxSample img))))).set 0
              (w.claheApply ((split (w.cvtColor .BGR2Lab
                  (convertTo8U (w.scale255 img (maxSample img))))).getD 0 Mat.empty)
                N (atoi argv4))) with
          | some merged =>
            ([Event.imread file, Event.printf (Msg.rgb16 (baseFilename file)),
              Event.rgb (convertTo8U (w.scale255 img (maxSample img))) N (atoi argv4),
              Event.imwrite (outputPath argv2 file) (w.cvtColor .Lab2BGR merged)], true)
          | none =>
            ([Event.imread file, Event.printf (Msg.rgb16 (baseFilename file)),
              Event.rgb (convertTo8U (w.scale255 img (maxSample img))) N (atoi argv4)],
             false)) := by
  subst hN himg
  have hclip := atoi_digits ds rest hds hne hrest hfit
  have h16 : CV_16U ≠ CV_8U := by decide
  refine ⟨?_, ?_, ?_, ?_⟩
  · intro hd hc
    simp [processImage, dispatch, equalizeAndWrite, clahe_conversion, hclip, hd, hc]
  · intro hd hc
    simp only [processImage, dispatch, equalizeAndWrite, clahe_rgb, mergedLab, labPlanes,
      equalizedLuminance, labImage, clahe_conversion, hclip, hd, hc, if_true, if_false]
    cases merge ((split (w.cvtColor .BGR2Lab (w.imread file))).set 0
      (w.claheApply ((split (w.cvtColor .BGR2Lab (w.imread file))).getD 0 Mat.empty)
        (Nat.ofDigits 10 ds.reverse : Nat) (atoi argv4))) <;> rfl
  · intro hd hc
    simp [processImage, dispatch, equalizeAndWrite, clahe_conversion, hclip, hd, hc, h16]
  · intro hd hc
    simp only [processImage, dispatch, equalizeAndWrite, clahe_rgb, mergedLab, labPlanes,
      equalizedLuminance, labImage, clahe_conversion, hclip, hd, hc, h16, if_true, if_false]
    cases merge ((split (w.cvtColor .BGR2Lab
        (convertTo8U (w.scale255 (w.imread file) (maxSample (w.imread file)))))).set 0
      (w.claheApply ((split (w.cvtColor .BGR2Lab
          (convertTo8U (w.scale255 (w.imread file) (maxSample (w.imread file)))))).getD 0
            Mat.empty)
        (Nat.ofDigits 10 ds.reverse : Nat) (atoi argv4))) <;> rfl

/-- Witness for claim C5: for the argument `2.5` and an 8-bit single-channel
image, the equalizer is run with clip limit 2. -/
theorem clip_limit_passed_witness :
    processImage (exampleWorld [] (fun _ => false) gray2x2) "out".toList
        ([2].map Nat.digitChar ++ ".5".toList) "8".toList "./in/a.png".toList
      = ([Event.imread "./in/a.png".toList,
          Event.printf (Msg.gray8 (baseFilename "./in/a.png".toList)),
          Event.conversion gray2x2 (2 : Nat) (atoi "8".toList),
          Event.imwrite (outputPath "out".toList "./in/a.png".toList)
            ((exampleWorld [] (fun _ => false) gray2x2).claheApply gray2x2 (2 : Nat)
              (atoi "8".toList))], true) :=
  (clip_limit_passed (exampleWorld [] (fun _ => false) gray2x2) "out".toList "8".toList
    "./in/a.png".toList [2] ".5".toList 2 gray2x2 (by decide) (by decide) (by decide)
    (by norm_num [Nat.ofDigits]) (by decide) rfl).1 (by decide) (by decide)

/-- Claim C5 fails as stated: for the argument `2.5` the equalizer is called with
clip limit 2, which is not the number 2.5. -/
theorem decimal_clip_limit_truncated :
    (processImage (exampleWorld [] (fun _ => false) gray2x2) "out".toList
        "2.5".toList "8".toList "./in/a.png".toList).1
      = [Event.imread "./in/a.png".toList,
         Event.printf (Msg.gray8 "a.png".toList),
         Event.conversion gray2x2 2 8,
         Event.imwrite "./out/a.png".toList gray2x2]
      ∧ ((atoi "2.5".toList : Int) : ℚ) ≠ 5 / 2 := by
  refine ⟨by decide, ?_⟩
  have h : atoi "2.5".toList = 2 := by decide
  rw [h]
  norm_num

/-! ## Output paths -/

/-- A text without separator leaves the scan of `find_last_of` where it was. -/
theorem findLastGo_no_match (set cs : List Char) (i best : Nat)
    (h : ∀ c ∈ cs, set.contains c = false) : findLastGo set cs i best = best := by
  induction cs generalizing i best with
  | nil => rfl
  | cons c cs ih =>
    have hc : set.contains c = false := h c (by simp)
    rw [findLastGo, hc]
    exact ih (i + 1) best (fun x hx => h x (by simp [hx]))

/-- The scan of `find_last_of` over a concatenation. -/
theorem findLastGo_append (set xs ys : List Char) (i best : Nat) :
    findLastGo set (xs ++ ys) i best
      = findLastGo set ys (i + xs.length) (findLastGo set xs i best) := by
  induction xs generalizing i best with
  | nil => simp [findLastGo]
  | cons c cs ih =>
    have step : findLastGo set (c :: (cs ++ ys)) i best
        = findLastGo set (cs ++ ys) (i + 1) (if set.contains c then i else best) := rfl
    have step2 : findLastGo set (c :: cs) i best
        = findLastGo set cs (i + 1) (if set.contains c then i else best) := rfl
    rw [List.cons_append, step, step2, ih, List.length_cons]
    congr 1
    omega

/-- The base file name of `dir/name` is `name` when `name` holds no separator. -/
theorem baseFilename_dir_name (dir name : CString)
    (hname : ∀ c ∈ name, separators.contains c = false)
    (hlen : dir.length + 1 < 2 ^ 64) :
    baseFilename (dir ++ '/' :: name) = name := by
  have hfind : find_last_of (dir ++ '/' :: name) separators = dir.length := by
    unfold find_last_of
    rw [findLastGo_append, findLastGo]
    have hs : separators.contains '/' = true := by decide
    rw [hs, if_pos rfl, findLastGo_no_match _ _ _ _ hname]
    omega
  unfold baseFilename substr
  rw [hfind, Nat.mod_eq_of_lt hlen]
  simp

/-- Claim C7, as the code has it: `cv::glob` lists the files of the input
directory as `dir/name`. For the files whose name holds neither a slash nor a
backslash, the output path is `./outDir/name`, and two such files of different
names get different output paths. -/
theorem output_paths_distinct (dir outDir name1 name2 : CString)
    (h1 : ∀ c ∈ name1, c ∉ separators) (h2 : ∀ c ∈ name2, c ∉ separators)
    (hlen : dir.length + 1 < 2 ^ 64) (hne : name1 ≠ name2) :
    outputPath outDir (dir ++ '/' :: name1) = "./".toList ++ outDir ++ "/".toList ++ name1
      ∧ outputPath outDir (dir ++ '/' :: name2) = "./".toList ++ outDir ++ "/".toList ++ name2
      ∧ outputPath outDir (dir ++ '/' :: name1) ≠ outputPath outDir (dir ++ '/' :: name2) := by
  have b1 : baseFilename (dir ++ '/' :: name1) = name1 :=
    baseFilename_dir_name _ _ (fun c hc => by simpa using h1 c hc) hlen
  have b2 : baseFilename (dir ++ '/' :: name2) = name2 :=
    baseFilename_dir_name _ _ (fun c hc => by simpa using h2 c hc) hlen
  refine ⟨by rw [outputPath, b1], by rw [outputPath, b2], ?_⟩
  rw [outputPath, outputPath, b1, b2]
  intro h
  exact hne (List.append_cancel_left h)

/-- Witness for claim C7: the files `a.png` and `b.png` of the directory `./in`. -/
theorem output_paths_distinct_witness :
    outputPath "out".toList ("./in".toList ++ '/' :: "a.png".toList) = "./out/a.png".toList
      ∧ outputPath "out".toList ("./in".toList ++ '/' :: "b.png".toList) = "./out/b.png".toList
      ∧ outputPath "out".toList ("./in".toList ++ '/' :: "a.png".toList)
          ≠ outputPath "out".toList ("./in".toList ++ '/' :: "b.png".toList) :=
  output_paths_distinct "./in".toList "out".toList "a.png".toList "b.png".toList
    (by decide) (by decide) (by decide) (by decide)

/-- Claim C7 fails as stated: a backslash is a legal character of a POSIX file name
and a separator for `find_last_of("/\\")`, so the two different files
`a\x.png` and `b\x.png` of the directory `in` are both written to
`./out/x.png`. -/
theorem backslash_names_collide :
    ("./in/a".toList ++ Char.ofNat 92 :: "x.png".toList)
        ≠ ("./in/b".toList ++ Char.ofNat 92 :: "x.png".toList)
      ∧ outputPath "out".toList ("./in/a".toList ++ Char.ofNat 92 :: "x.png".toList)
        = "./out/x.png".toList
      ∧ outputPath "out".toList ("./in/b".toList ++ Char.ofNat 92 :: "x.png".toList)
        = "./out/x.png".toList := by
  decide

/-! ## The planes `clahe_rgb` merges -/

/-- Length of an interleaving of `n` blocks of `c` samples. -/
theorem length_flatMap_range (f : Nat → List Nat) (c : Nat) (hf : ∀ i, (f i).length = c)
    (n : Nat) : ((List.range n).flatMap f).length = n * c := by
  induction n with
  | zero => simp
  | succ n ih =>
    rw [List.range_succ, List.flatMap_append, List.length_append, ih, List.flatMap_singleton, hf]
    ring

/-- Sample `k` of block `i` in an interleaving of blocks of `c` samples. -/
theorem getD_flatMap_range (f : Nat → List Nat) (c : Nat) (hf : ∀ i, (f i).length = c)
    (n i k : Nat) (hi : i < n) (hk : k < c) :
    ((List.range n).flatMap f).getD (i * c + k) 0 = (f i).getD k 0 := by
  induction n with
  | zero => omega
  | succ n ih =>
    rw [List.range_succ, List.flatMap_append, List.flatMap_singleton]
    have hlen := length_flatMap_range f c hf n
    by_cases hin : i < n
    · have hlt : i * c + k < ((List.range n).flatMap f).length := by
        rw [hlen]
        calc i * c + k < i * c + c := by omega
          _ = (i + 1) * c := by ring
          _ ≤ n * c := Nat.mul_le_mul_right c hin
      rw [List.getD_append _ _ _ _ hlt]
      exact ih hin
    · have hieq : i = n := by omega
      subst hieq
      have hge : ((List.range i).flatMap f).length ≤ i * c + k := by rw [hlen]; omega
      rw [List.getD_append_right _ _ _ _ hge, hlen]
      congr 1
      omega

/-- Reading a list back sample by sample. -/
theorem map_range_getD (l : List Nat) :
    (List.range l.length).map (fun i => l.getD i 0) = l := by
  apply List.ext_getElem
  · simp
  · intro i h1 h2
    simp [List.getElem?_eq_getElem h2]

/-- The planes of `cv::split` hold one sample per pixel. -/
theorem splitPlane_data_length (m : Mat) (k : Nat) :
    (splitPlane m k).data.length = m.rows * m.cols := by
  simp [splitPlane]

/-- `cv::merge` on three single-channel planes of one size and depth. -/
theorem merge_three (r c dp : Nat) (d0 d1 d2 : List Nat) :
    merge [⟨r, c, 1, dp, d0⟩, ⟨r, c, 1, dp, d1⟩, ⟨r, c, 1, dp, d2⟩]
      = some ⟨r, c, 3, dp,
          (List.range (r * c)).flatMap (fun i => [d0.getD i 0, d1.getD i 0, d2.getD i 0])⟩ := by
  simp [merge, sameShape, pixelSamples, List.range_succ]

/-- Splitting an interleaving of three sample lists gives the lists back. -/
theorem splitPlane_interleaved (r c dp : Nat) (d0 d1 d2 : List Nat)
    (h0 : d0.length = r * c) (h1 : d1.length = r * c) (h2 : d2.length = r * c) :
    split ⟨r, c, 3, dp,
        (List.range (r * c)).flatMap (fun i => [d0.getD i 0, d1.getD i 0, d2.getD i 0])⟩
      = [⟨r, c, 1, dp, d0⟩, ⟨r, c, 1, dp, d1⟩, ⟨r, c, 1, dp, d2⟩] := by
  have key : ∀ k, k < 3 → ∀ d : List Nat, d.length = r * c →
      (∀ i, [d0.getD i 0, d1.getD i 0, d2.getD i 0].getD k 0 = d.getD i 0) →
      splitPlane ⟨r, c, 3, dp,
        (List.range (r * c)).flatMap (fun i => [d0.getD i 0, d1.getD i 0, d2.getD i 0])⟩ k
        = ⟨r, c, 1, dp, d⟩ := by
    intro k hk d hd hsel
    unfold splitPlane
    simp only [Mat.mk.injEq, true_and]
    refine Eq.trans ?_ (show (List.range (r * c)).map (fun i => d.getD i 0) = d by
      rw [← hd]; exact map_range_getD d)
    apply List.map_congr_left
    intro i hi
    have hi2 : i < r * c := by simpa using hi
    rw [getD_flatMap_range (fun i => [d0.getD i 0, d1.getD i 0, d2.getD i 0]) 3
      (fun _ => rfl) _ i k hi2 hk]
    exact hsel i
  have hr : List.range 3 = [0, 1, 2] := by decide
  simp only [split, hr, List.map_cons, List.map_nil]
  rw [key 0 (by omega) d0 h0 (fun _ => rfl), key 1 (by omega) d1 h1 (fun _ => rfl),
    key 2 (by omega) d2 h2 (fun _ => rfl)]

/-- Claim C8: let `lab` be the forward conversion `cv::cvtColor(…, CV_BGR2Lab)`
of the input and `dst` the result of `cv::CLAHE::apply` on plane 0 of `lab`.
When `lab` has three channels and `dst` is a well-formed single-channel matrix
with the rows, columns and depth of `lab`, then `cv::merge` succeeds in
`clahe_rgb`, the result of `clahe_rgb` is the inverse conversion
`cv::cvtColor(…, CV_Lab2BGR)` of the merged image, and the planes of the merged
image are `dst` followed by planes 1 and 2 of `lab`. -/
theorem clahe_rgb_keeps_chrominance (w : World) (bgr_image : Mat) (clip window_size : Int)
    (lab dst : Mat)
    (hlab : w.cvtColor .BGR2Lab bgr_image = lab)
    (hdst : w.claheApply (splitPlane lab 0) clip window_size = dst)
    (hch : lab.channels = 3)
    (hrows : dst.rows = lab.rows) (hcols : dst.cols = lab.cols)
    (hdepth : dst.depth = lab.depth) (hone : dst.channels = 1) (hwf : dst.WellFormed) :
    ∃ merged, mergedLab w bgr_image clip window_size = some merged
      ∧ clahe_rgb w bgr_image clip window_size = some (w.cvtColor .Lab2BGR merged)
      ∧ split merged = [dst, splitPlane lab 1, splitPlane lab 2] := by
  have hL : labImage w bgr_image = lab := hlab
  have hsplit : split lab = [splitPlane lab 0, splitPlane lab 1, splitPlane lab 2] := by
    simp [split, hch, List.range_succ]
  have hD : equalizedLuminance w bgr_image clip window_size = dst := by
    simp [equalizedLuminance, clahe_conversion, hL, hsplit, hdst]
  have hplanes : labPlanes w bgr_image clip window_size
      = [dst, splitPlane lab 1, splitPlane lab 2] := by
    simp [labPlanes, hsplit, hD, hL]
  have hlen : dst.data.length = lab.rows * lab.cols := by
    have := hwf
    unfold Mat.WellFormed at this
    rw [this, hone, hrows, hcols]
    ring
  clear hdst hD
  obtain ⟨r, c, ch, dp, dat⟩ := dst
  simp only at hrows hcols hdepth hone hlen
  subst hrows hcols hdepth hone
  have hp1 : splitPlane lab 1 = ⟨lab.rows, lab.cols, 1, lab.depth, (splitPlane lab 1).data⟩ := rfl
  have hp2 : splitPlane lab 2 = ⟨lab.rows, lab.cols, 1, lab.depth, (splitPlane lab 2).data⟩ := rfl
  have hm := merge_three lab.rows lab.cols lab.depth dat (splitPlane lab 1).data
    (splitPlane lab 2).data
  rw [← hp1, ← hp2] at hm
  refine ⟨_, by rw [mergedLab, hplanes, hm], by rw [clahe_rgb, mergedLab, hplanes, hm]; rfl, ?_⟩
  rw [splitPlane_interleaved lab.rows lab.cols lab.depth dat _ _ hlen
    (splitPlane_data_length lab 1) (splitPlane_data_length lab 2)]
  rfl

/-- Witness for claim C8: a 1×2 colour image, a forward conversion that adds one
to every sample, an equalizer that inverts the samples. -/
theorem clahe_rgb_keeps_chrominance_witness :
    ∃ merged, mergedLab invertingWorld color1x2 2 8 = some merged
      ∧ clahe_rgb invertingWorld color1x2 2 8
          = some (invertingWorld.cvtColor .Lab2BGR merged)
      ∧ split merged
          = [⟨1, 2, 1, CV_8U, [253, 250]⟩, ⟨1, 2, 1, CV_8U, [3, 6]⟩, ⟨1, 2, 1, CV_8U, [4, 7]⟩] :=
  clahe_rgb_keeps_chrominance invertingWorld color1x2 2 8 ⟨1, 2, 3, CV_8U, [2, 3, 4, 5, 6, 7]⟩
    ⟨1, 2, 1, CV_8U, [253, 250]⟩ (by decide) (by decide)
    (by decide) (by decide) (by decide) (by decide) (by decide) (by decide)

/-! ## Conservation of the pixel count by contrast clipping -/

/-- Among the first `n` intensities, exactly one equals `p` when `p < n`. -/
theorem sum_indicator_range (p n : Nat) :
    ((List.range n).map (fun v => if p = v then 1 else 0)).sum = if p < n then 1 else 0 := by
  induction n with
  | zero => simp
  | succ n ih =>
    rw [List.range_succ, List.map_append, List.sum_append, ih]
    simp only [List.map_cons, List.map_nil, List.sum_cons, List.sum_nil]
    split_ifs <;> omega

/-- Counting every intensity below `n` in a list of pixels below `n` counts
every pixel once. -/
theorem sum_count_range (n : Nat) (tile : List Nat) (h : ∀ p ∈ tile, p < n) :
    ((List.range n).map (fun v => tile.count v)).sum = tile.length := by
  induction tile with
  | nil => simp
  | cons p t ih =>
    have hp : p < n := h p (by simp)
    have ht := ih (fun x hx => h x (by simp [hx]))
    have hcount : ∀ v, (p :: t).count v = t.count v + (if p = v then 1 else 0) := by
      intro v
      rw [List.count_cons]
      by_cases hpv : p = v <;> simp [hpv]
    simp only [hcount]
    rw [List.sum_map_add, ht, sum_indicator_range, if_pos hp, List.length_cons]

/-- The bins of a tile histogram add up to the number of pixels of the tile. -/
theorem sum_tileHistogram (tile : List Nat) (h8 : ∀ p ∈ tile, p < 256) :
    (tileHistogram tile).sum = tile.length :=
  sum_count_range 256 tile h8

/-- A tile histogram has 256 bins. -/
theorem length_tileHistogram (tile : List Nat) : (tileHistogram tile).length = 256 := by
  simp [tileHistogram]

/-- Adding `q` to every bin adds `q` once per bin to the total. -/
theorem sum_map_add_const (l : List Nat) (q : Nat) :
    (l.map (fun b => b + q)).sum = l.sum + l.length * q := by
  induction l with
  | nil => simp
  | cons b bs ih =>
    simp only [List.map_cons, List.sum_cons, List.length_cons, ih]
    ring

/-- Cutting the bins at `T` loses exactly the excess over `T`. -/
theorem sum_clip_add_excess (l : List Nat) (T : Nat) :
    (l.map (fun b => min b T)).sum + (l.map (fun b => b - T)).sum = l.sum := by
  induction l with
  | nil => simp
  | cons b bs ih =>
    simp only [List.map_cons, List.sum_cons]
    have : min b T + (b - T) = b := by omega
    omega

/-- A pass keeps the number of bins. -/
theorem length_clipPass (T : Nat) (state : List Nat × Nat) :
    (clipPass T state).1.length = state.1.length := by
  simp [clipPass]

/-- A pass keeps the total of the bins and the carried excess, and carries less
than 256. -/
theorem clipPass_total (T : Nat) (state : List Nat × Nat) (hlen : state.1.length = 256) :
    (clipPass T state).1.sum + (clipPass T state).2 = state.1.sum + state.2
      ∧ (clipPass T state).2 < 256 := by
  have hcut := sum_clip_add_excess state.1 T
  simp only [clipPass, sum_map_add_const, List.length_map, hlen]
  have hdiv := Nat.div_add_mod (state.2 + (state.1.map (fun b => b - T)).sum) 256
  have hmod := Nat.mod_lt (state.2 + (state.1.map (fun b => b - T)).sum)
    (show 256 > 0 by omega)
  constructor <;> omega

/-- Any number of passes keeps the number of bins, the total of bins and carry,
and a carry below 256. -/
theorem clipPasses_total (T rounds : Nat) (state : List Nat × Nat)
    (hlen : state.1.length = 256) (hcarry : state.2 < 256) :
    (clipPasses T rounds state).1.length = 256
      ∧ (clipPasses T rounds state).1.sum + (clipPasses T rounds state).2
          = state.1.sum + state.2
      ∧ (clipPasses T rounds state).2 < 256 := by
  induction rounds generalizing state with
  | zero => exact ⟨hlen, rfl, hcarry⟩
  | succ n ih =>
    have hp := clipPass_total T state hlen
    have hl : (clipPass T state).1.length = 256 := by rw [length_clipPass, hlen]
    have := ih (clipPass T state) hl hp.2
    refine ⟨this.1, ?_, this.2.2⟩
    show (clipPasses T n (clipPass T state)).1.sum + (clipPasses T n (clipPass T state)).2 = _
    rw [this.2.1, hp.1]

/-- One more pixel in an existing bin keeps the number of bins and adds one to
the total. -/
theorem bump_spec (hist : List Nat) (i : Nat) (hi : i < hist.length) :
    (bump hist i).length = hist.length ∧ (bump hist i).sum = hist.sum + 1 := by
  induction hist generalizing i with
  | nil => simp at hi
  | cons b bs ih =>
    cases i with
    | zero => simp [bump]; omega
    | succ j =>
      have hj : j < bs.length := by simpa using hi
      obtain ⟨h1, h2⟩ := ih j hj
      refine ⟨?_, ?_⟩
      · rw [bump, List.length_cons, List.length_cons, h1]
      · rw [bump, List.sum_cons, List.sum_cons, h2]
        omega

/-- The hand-out loop adds the whole remainder when its last index stays below
256. -/
theorem spreadResidual_sum (step residual i : Nat) (hist : List Nat)
    (hlen : hist.length = 256) (hfit : residual = 0 ∨ i + (residual - 1) * step < 256) :
    (spreadResidual step residual i hist).sum = hist.sum + residual := by
  induction residual generalizing i hist with
  | zero => rfl
  | succ r ih =>
    have hi : i < 256 := by
      rcases hfit with h | h
      · omega
      · have : i ≤ i + (r + 1 - 1) * step := Nat.le_add_right _ _
        omega
    have hb := bump_spec hist i (by omega)
    rw [spreadResidual, if_pos hi, ih (i + step) (bump hist i) (by omega) ?_, hb.2]
    · omega
    · rcases Nat.eq_zero_or_pos r with h0 | hpos
      · exact Or.inl h0
      · right
        rcases hfit with h | h
        · omega
        · have e : (r + 1 - 1) * step = (r - 1) * step + step := by
            have : r + 1 - 1 = (r - 1) + 1 := by omega
            rw [this, Nat.add_mul, Nat.one_mul]
          omega

/-- Claim C9: for every tile of 8-bit pixels, every clip limit (zero included) and
every number of clip-and-redistribute passes, the clipped histogram of the tile
adds up to the number of pixels of the tile. -/
theorem clipped_histogram_sum (tile : List Nat) (clipLimit rounds : Nat)
    (h8 : ∀ p ∈ tile, p < 256) :
    (clipHistogram (clipThreshold clipLimit tile.length) rounds (tileHistogram tile)).sum
      = tile.length := by
  have hpass := clipPasses_total (clipThreshold clipLimit tile.length) rounds
    (tileHistogram tile, 0) (length_tileHistogram tile) (by simp)
  obtain ⟨hlen, hsum, hcarry⟩ := hpass
  unfold clipHistogram
  simp only
  rw [spreadResidual_sum _ _ 0 _ hlen ?_, hsum, sum_tileHistogram tile h8]
  · rfl
  · generalize (clipPasses (clipThreshold clipLimit tile.length) rounds
      (tileHistogram tile, 0)).2 = r at hcarry ⊢
    rcases Nat.eq_zero_or_pos r with h0 | hpos
    · exact Or.inl h0
    · right
      have hq : 1 ≤ 256 / r := (Nat.one_le_div_iff hpos).mpr (by omega)
      rw [Nat.zero_add, max_eq_left hq]
      calc (r - 1) * (256 / r) < r * (256 / r) :=
            Nat.mul_lt_mul_of_pos_right (by omega) (by omega)
        _ ≤ 256 := Nat.mul_div_le 256 r

/-- Witness for claim C9: a tile of four pixels, clip limit 2, one pass. -/
theorem clipped_histogram_sum_witness :
    (clipHistogram (clipThreshold 2 [0, 0, 0, 1].length) 1 (tileHistogram [0, 0, 0, 1])).sum
      = [0, 0, 0, 1].length :=
  clipped_histogram_sum [0, 0, 0, 1] 2 1 (by decide)

end Clahe
